import Mathlib

/-!
Shallow embedding of `src/main.py`, an inventory-management system built on a
command pattern: `User`, `InventoryItem`, four operation classes
(`AddItem`, `RemoveItem`, `TransferItem`, `AdjustPrice`) each with
`execute`/`undo` methods, and an `InventoryManager` holding an undo history.

Modelling choices, each tied to a line of the source:
* Python `Decimal` is modelled as `ℚ` (exact arithmetic; the amounts and
  prices in the program are exact decimals, a subset of the rationals).
* `int(amount)` on a `Decimal` (lines 97, 106, 119, 127) truncates toward
  zero; `pyInt` embeds that coercion.
* `TransferItem` and `AdjustPrice` instances are mutable (they store
  `old_location` / `old_price`, initialised to Python `None`, embedded as
  `Option`).  `execute` therefore returns the updated operation state along
  with the updated item.
* Calling `undo` on a fresh instance would assign Python `None` to a
  `str`/`Decimal` attribute, putting the item in an ill-typed state; the
  embedding returns `none` for that (unreachable through the manager, which
  only undoes entries recorded after an `execute`).
* Python objects are references: the manager's history stores references to
  operation and item objects, and the same operation instance may occur in
  several entries, sharing its mutable saved state.  `SystemState` embeds the
  heap as total maps from object ids (`Nat`) to object states, and the
  history as a list of `(operation id, item id, amount)` triples.
* `print` calls are embedded as an output list of strings returned to the
  caller; a denied operation emits the error line of source line 218, and an
  empty-history undo (lines 227-229) emits nothing.
-/

/-- `User` (src/main.py lines 16-25): a username and a role string,
role defaulting to `"staff"` at the call sites that omit it. -/
structure User where
  username : String
  role : String
deriving DecidableEq

/-- `InventoryItem` (src/main.py lines 31-47): name, amount, price, location.
Quantities and prices are Python `Decimal`s, embedded as `ℚ`. -/
structure InventoryItem where
  name : String
  amount : ℚ
  price : ℚ
  location : String
deriving DecidableEq

/-- `InventoryItem.__init__` (src/main.py lines 40-47): the constructor takes
only name, amount and price; the location always starts as `"Main Storage"`. -/
def mkInventoryItem (name : String) (amount price : ℚ) : InventoryItem :=
  { name := name, amount := amount, price := price, location := "Main Storage" }

/-- Python `int(d)` on a `Decimal` `d`: truncation toward zero (floor for
nonnegative arguments, ceiling for negative ones). -/
def pyInt (q : ℚ) : ℤ :=
  if 0 ≤ q then ⌊q⌋ else ⌈q⌉

/-- The state of one operation object (src/main.py lines 86-186).
`AddItem` and `RemoveItem` carry no instance state; `TransferItem` carries its
target `new_location` and the mutable `old_location` slot (Python `None`
before the first `execute`); `AdjustPrice` carries the mutable `old_price`
slot. -/
inductive InventoryOperation where
  | addItem : InventoryOperation
  | removeItem : InventoryOperation
  | transferItem (new_location : String) (old_location : Option String) : InventoryOperation
  | adjustPrice (old_price : Option ℚ) : InventoryOperation
deriving DecidableEq

/-- `TransferItem.__init__` (src/main.py lines 134-141): stores the target
location, `old_location` starts as `None`. -/
def mkTransferItem (new_location : String) : InventoryOperation :=
  .transferItem new_location none

/-- `AdjustPrice.__init__` (src/main.py lines 165-169): `old_price` starts as
`None`. -/
def mkAdjustPrice : InventoryOperation :=
  .adjustPrice none

/-- The `execute` methods (src/main.py lines 90-97, 113-119, 143-150,
171-178).  Returns the updated operation object together with the updated
item:
* `AddItem.execute`: `item.amount += int(amount)`;
* `RemoveItem.execute`: `item.amount -= int(amount)`;
* `TransferItem.execute`: `self.old_location = item.location;
  item.location = self.new_location`;
* `AdjustPrice.execute`: `self.old_price = item.price;
  item.price += amount` (no truncation). -/
def InventoryOperation.execute :
    InventoryOperation → InventoryItem → ℚ → InventoryOperation × InventoryItem
  | .addItem, item, amount =>
      (.addItem, { item with amount := item.amount + (pyInt amount : ℚ) })
  | .removeItem, item, amount =>
      (.removeItem, { item with amount := item.amount - (pyInt amount : ℚ) })
  | .transferItem nl _, item, _ =>
      (.transferItem nl (some item.location), { item with location := nl })
  | .adjustPrice _, item, amount =>
      (.adjustPrice (some item.price), { item with price := item.price + amount })

/-- The `undo` methods (src/main.py lines 99-106, 121-127, 152-158, 180-186).
`undo` never mutates the operation object; for `TransferItem`/`AdjustPrice`
with an unpopulated saved slot the Python code would assign `None` to the
item's attribute (an ill-typed state), embedded here as `none`:
* `AddItem.undo`: `item.amount -= int(amount)`;
* `RemoveItem.undo`: `item.amount += int(amount)`;
* `TransferItem.undo`: `item.location = self.old_location`;
* `AdjustPrice.undo`: `item.price = self.old_price`. -/
def InventoryOperation.undo :
    InventoryOperation → InventoryItem → ℚ → Option InventoryItem
  | .addItem, item, amount =>
      some { item with amount := item.amount - (pyInt amount : ℚ) }
  | .removeItem, item, amount =>
      some { item with amount := item.amount + (pyInt amount : ℚ) }
  | .transferItem _ ol, item, _ =>
      ol.map fun l => { item with location := l }
  | .adjustPrice op, item, _ =>
      op.map fun p => { item with price := p }

/-- `isinstance(operation, AdjustPrice)` (src/main.py line 217). -/
def InventoryOperation.isAdjustPrice : InventoryOperation → Bool
  | .adjustPrice _ => true
  | _ => false

/-- The authorization test of src/main.py line 217:
`isinstance(operation, AdjustPrice) and user.role != "admin"`. -/
def deniedFor (user : User) (op : InventoryOperation) : Bool :=
  op.isAdjustPrice && (user.role != "admin")

/-- The global state: the heap of operation objects and item objects (total
maps from object ids), plus the manager's `history` list of
`(operation, item, amount)` references (src/main.py lines 196-200). -/
structure SystemState where
  ops : Nat → InventoryOperation
  items : Nat → InventoryItem
  history : List (Nat × Nat × ℚ)

/-- The error line printed by src/main.py line 218. -/
def adjustDeniedMsg : String := "Error! Only admins can adjust prices"

/-- `InventoryManager.perform_operation` (src/main.py lines 202-221): if the
operation is an `AdjustPrice` and the user's role is not the exact string
`"admin"`, print the error and do nothing else; otherwise run
`operation.execute(item, amount)` and append `(operation, item, amount)` to
the history.  Returns the new state and the list of printed lines. -/
def perform_operation (user : User) (opId itemId : Nat) (amount : ℚ)
    (s : SystemState) : SystemState × List String :=
  if deniedFor user (s.ops opId) then
    (s, [adjustDeniedMsg])
  else
    let r := (s.ops opId).execute (s.items itemId) amount
    ({ ops := Function.update s.ops opId r.1,
       items := Function.update s.items itemId r.2,
       history := s.history ++ [(opId, itemId, amount)] }, [])

/-- `InventoryManager.undo_last_operation` (src/main.py lines 223-229): if the
history is nonempty, pop its last entry and run `operation.undo(item, amount)`
on the recorded references; on an empty history do nothing (and print
nothing).  Returns `none` only if the popped operation's `undo` would put the
item in an ill-typed state (unreachable for histories built by
`perform_operation`). -/
def undo_last_operation (s : SystemState) : Option (SystemState × List String) :=
  match s.history.getLast? with
  | none => some (s, [])
  | some e =>
      ((s.ops e.1).undo (s.items e.2.1) e.2.2).map fun it =>
        ({ s with items := Function.update s.items e.2.1 it,
                  history := s.history.dropLast }, [])

/-- One call to `perform_operation`, bundled. -/
structure Call where
  user : User
  opId : Nat
  itemId : Nat
  amount : ℚ

/-- Run one bundled call. -/
def performCall (c : Call) (s : SystemState) : SystemState × List String :=
  perform_operation c.user c.opId c.itemId c.amount s

/-- Run a sequence of calls, keeping only the states. -/
def runCalls (s : SystemState) (cs : List Call) : SystemState :=
  cs.foldl (fun s c => (performCall c s).1) s

/-- Every call in the sequence succeeds (prints nothing, i.e. is not an
authorization denial) in the state where it runs. -/
def allSuccessful : SystemState → List Call → Prop
  | _, [] => True
  | s, c :: cs => (performCall c s).2 = [] ∧ allSuccessful (performCall c s).1 cs

/-- The storage locations known to the system: the default `"Main Storage"`
together with the target location of every `TransferItem` object in the heap. -/
def knownLocations (s : SystemState) : Set String :=
  { l | l = "Main Storage" ∨ ∃ id ol, s.ops id = .transferItem l ol }

/-- A freshly constructed operation object: its saved-state slot (if any) is
still `None` (src/main.py lines 134-141, 165-169). -/
def freshOp : InventoryOperation → Prop
  | .transferItem _ ol => ol = none
  | .adjustPrice op => op = none
  | _ => True

/-- States reachable from a start state by `perform_operation` and
`undo_last_operation` calls. -/
inductive Steps : SystemState → SystemState → Prop
  | refl (s : SystemState) : Steps s s
  | performStep (s s' : SystemState) (u : User) (opId itemId : Nat) (a : ℚ) :
      Steps s s' → Steps s (perform_operation u opId itemId a s').1
  | undoStep (s s' s'' : SystemState) (out : List String) :
      Steps s s' → undo_last_operation s' = some (s'', out) → Steps s s''

/-- The invariant behind claim C8: every item's location is a known location,
and every populated `old_location` slot holds a known location. -/
def LocInv (s : SystemState) : Prop :=
  (∀ i, (s.items i).location ∈ knownLocations s) ∧
  (∀ id nl l, s.ops id = .transferItem nl (some l) → l ∈ knownLocations s)

/-- A concrete heap used by witnesses: op 0 is a fresh `AddItem`-style heap
filled with fresh transfer operations, one item, empty history. -/
def witnessState : SystemState :=
  { ops := fun _ => mkTransferItem "Shelf B",
    items := fun _ => mkInventoryItem "Widget" 10 100,
    history := [] }

/-- A concrete state whose heap is all `AddItem` objects, with empty
history, used for the empty-undo analysis. -/
def emptyHistState : SystemState :=
  { ops := fun _ => .addItem,
    items := fun _ => mkInventoryItem "Widget" 10 100,
    history := [] }

/-- The admin of the demo script (src/main.py line 233). -/
def adminUser : User := { username := "admin_user", role := "admin" }

/-- The staff member of the demo script (src/main.py line 234). -/
def staffUser : User := { username := "staff_user", role := "staff" }

/-- A concrete heap whose operations are all fresh `AdjustPrice` objects. -/
def adjustHeapState : SystemState :=
  { ops := fun _ => mkAdjustPrice,
    items := fun _ => mkInventoryItem "Iphone" 10 (159999/100),
    history := [] }

/-- A concrete call used by witnesses: the staff user runs operation 0 on
item 0 with amount 5. -/
def demoCall : Call :=
  { user := staffUser, opId := 0, itemId := 0, amount := 5 }

/-! ## Basic lemmas about the operation methods -/

/-- Round-trip helper: `undo` after `execute` with the same amount, on the
operation state that `execute` produced, returns exactly the original item
(for every variant: `int(amount)` is subtracted back for `AddItem`, added
back for `RemoveItem`, and the saved location/price is restored for
`TransferItem`/`AdjustPrice`). -/
theorem execute_then_undo (op : InventoryOperation) (item : InventoryItem) (a : ℚ) :
    (op.execute item a).1.undo (op.execute item a).2 a = some item := by
  cases op <;> cases item <;>
    simp [InventoryOperation.execute, InventoryOperation.undo]

/-- `execute` never changes an item's name. -/
theorem execute_name (op : InventoryOperation) (item : InventoryItem) (a : ℚ) :
    ((op.execute item a).2).name = item.name := by
  cases op <;> simp [InventoryOperation.execute]

/-! ## C2: apply/reverse round trip -/

/-- C2: for every item `I`, every amount `a` and every operation variant
(`op` ranges over exactly the four variants `AddItem`, `RemoveItem`,
`TransferItem`, `AdjustPrice`), running `execute` and then `undo` with the
same amount restores `I` exactly: `AddItem`/`RemoveItem` undo applies the
same truncated amount in the opposite direction, `TransferItem` restores the
saved original location, and `AdjustPrice` restores the saved original
price.  The result `some I` is the full original item. -/
theorem apply_reverse_roundtrip (op : InventoryOperation) (item : InventoryItem) (a : ℚ) :
    (op.execute item a).1.undo (op.execute item a).2 a = some item :=
  execute_then_undo op item a

/-! ## C5: truncation for stock operations, exact arithmetic for reprice -/

/-- C5: `AddItem`/`RemoveItem` `execute` and `undo` change the quantity by
exactly `pyInt amount` (truncation toward zero: its magnitude is within 1
below the magnitude of `a` and never exceeds it), while `AdjustPrice` adds
the amount exactly, with no truncation; concretely, `AddItem` with amount
`5.7` on quantity `10` gives `15`, and its `undo` subtracts the truncated
`5`, giving `10` again. -/
theorem truncation_semantics :
    (∀ (item : InventoryItem) (a : ℚ) (p : Option ℚ),
      ((InventoryOperation.addItem.execute item a).2.amount
          = item.amount + (pyInt a : ℚ)) ∧
      ((InventoryOperation.removeItem.execute item a).2.amount
          = item.amount - (pyInt a : ℚ)) ∧
      (InventoryOperation.addItem.undo item a
          = some { item with amount := item.amount - (pyInt a : ℚ) }) ∧
      (InventoryOperation.removeItem.undo item a
          = some { item with amount := item.amount + (pyInt a : ℚ) }) ∧
      (((InventoryOperation.adjustPrice p).execute item a).2.price
          = item.price + a)) ∧
    (∀ q : ℚ, |(pyInt q : ℚ)| ≤ |q| ∧ |q| - 1 < |(pyInt q : ℚ)|) ∧
    ((InventoryOperation.addItem.execute (mkInventoryItem "X" 10 1) (57/10)).2.amount
        = 15) ∧
    (InventoryOperation.addItem.undo
        (InventoryOperation.addItem.execute (mkInventoryItem "X" 10 1) (57/10)).2 (57/10)
        = some (mkInventoryItem "X" 10 1)) := by
  have h57 : pyInt (57/10 : ℚ) = 5 := by
    unfold pyInt
    rw [if_pos (by norm_num), Int.floor_eq_iff]
    norm_num
  refine ⟨fun item a p => ⟨rfl, rfl, rfl, rfl, rfl⟩, ?_, ?_, ?_⟩
  · intro q
    unfold pyInt
    rcases le_or_lt 0 q with hq | hq
    · rw [if_pos hq, abs_of_nonneg hq,
        abs_of_nonneg (by exact_mod_cast Int.floor_nonneg.mpr hq)]
      exact ⟨Int.floor_le q, by linarith [Int.sub_one_lt_floor q]⟩
    · have hc : ((⌈q⌉ : ℤ) : ℚ) ≤ 0 := by
        exact_mod_cast Int.ceil_le.mpr (show q ≤ ((0 : ℤ) : ℚ) by exact_mod_cast hq.le)
      rw [if_neg (not_le.mpr hq), abs_of_neg hq, abs_of_nonpos hc]
      have h1 : q ≤ (⌈q⌉ : ℚ) := Int.le_ceil q
      have h2 : (⌈q⌉ : ℚ) < q + 1 := Int.ceil_lt_add_one q
      constructor <;> linarith
  · norm_num [InventoryOperation.execute, mkInventoryItem, h57]
  · norm_num [InventoryOperation.undo, InventoryOperation.execute, mkInventoryItem, h57]

/-! ## C4: undo on an empty history -/

/-- C4 counterexample: with an empty history, `undo_last_operation` is a
no-op that emits no output at all — there is no state/output pair with a
nonempty report, so the outcome is not "reported to the caller as nothing to
undo"; the source's `undo_last_operation` simply falls through its
`if self.history:` guard silently. -/
theorem undo_empty_unreported :
    ¬ ∃ s' out, undo_last_operation emptyHistState = some (s', out) ∧ out ≠ [] := by
  rintro ⟨s', out, h, hne⟩
  have h0 : undo_last_operation emptyHistState = some (emptyHistState, []) := rfl
  have h1 := Option.some.inj (h0.symm.trans h)
  exact hne (congrArg Prod.snd h1).symm

/-- C4 amended: calling `undo_last_operation` on a state with empty history
is a silent no-op: the state (every item, every operation, the history) is
returned unchanged, no error is raised, and nothing is printed. -/
theorem undo_empty_noop (s : SystemState) (h : s.history = []) :
    undo_last_operation s = some (s, []) := by
  unfold undo_last_operation
  rw [h]
  rfl

/-- Witness for `undo_empty_noop` at the concrete state `emptyHistState`. -/
theorem undo_empty_noop_witness :
    emptyHistState.history = [] ∧
    undo_last_operation emptyHistState = some (emptyHistState, []) :=
  ⟨rfl, undo_empty_noop emptyHistState rfl⟩

/-! ## C3: authorization gate of perform_operation -/

/-- The source's denial test holds exactly when the operation is an
`AdjustPrice` and the role differs from the exact string `"admin"`. -/
theorem deniedFor_true_iff (u : User) (op : InventoryOperation) :
    deniedFor u op = true ↔ op.isAdjustPrice = true ∧ u.role ≠ "admin" := by
  simp [deniedFor, bne_iff_ne]

/-- C3: `perform_operation` rejects (prints an error) iff the operation is an
`AdjustPrice` and the user's role is not `"admin"`; on rejection the entire
state — every item, every operation, the history — is unchanged and the
denial message is reported; in every other case the call executes: it prints
nothing, mutates the item by the operation's `execute`, and appends the
entry to the history. -/
theorem perform_rejects_iff (u : User) (opId itemId : Nat) (a : ℚ) (s : SystemState) :
    ((perform_operation u opId itemId a s).2 ≠ [] ↔
      (s.ops opId).isAdjustPrice = true ∧ u.role ≠ "admin") ∧
    ((s.ops opId).isAdjustPrice = true → u.role ≠ "admin" →
      perform_operation u opId itemId a s = (s, [adjustDeniedMsg])) ∧
    (deniedFor u (s.ops opId) = false →
      (perform_operation u opId itemId a s).2 = [] ∧
      (perform_operation u opId itemId a s).1.history
          = s.history ++ [(opId, itemId, a)] ∧
      (perform_operation u opId itemId a s).1.items itemId
          = ((s.ops opId).execute (s.items itemId) a).2) := by
  refine ⟨?_, ?_, ?_⟩
  · rw [← deniedFor_true_iff]
    cases hdx : deniedFor u (s.ops opId) <;>
      simp [perform_operation, hdx, adjustDeniedMsg]
  · intro h1 h2
    have hd : deniedFor u (s.ops opId) = true := (deniedFor_true_iff u _).mpr ⟨h1, h2⟩
    simp [perform_operation, hd]
  · intro hf
    simp [perform_operation, hf, Function.update_same]

/-- Witness for `perform_rejects_iff`: a staff user attempting an
`AdjustPrice` is denied with the error message and an unchanged state. -/
theorem perform_rejects_iff_witness :
    perform_operation staffUser 0 0 5 adjustHeapState
      = (adjustHeapState, [adjustDeniedMsg]) :=
  (perform_rejects_iff staffUser 0 0 5 adjustHeapState).2.1 rfl (by decide)

/-! ## C7: effects and frame of an authorized perform_operation -/

/-- C7: on an authorized call, `perform_operation` prints nothing, applies
the operation's `execute` to the targeted item and its own instance state,
and appends exactly the entry `(opId, itemId, amount)` at the end of the
history; nothing else changes: every other item and every other operation
object is untouched, the item's name is never changed, and each variant
leaves the item fields it does not target unchanged (`AddItem`/`RemoveItem`
keep price and location, `TransferItem` keeps amount and price,
`AdjustPrice` keeps amount and location). -/
theorem perform_frame (u : User) (opId itemId : Nat) (a : ℚ) (s : SystemState)
    (hok : deniedFor u (s.ops opId) = false) :
    ((perform_operation u opId itemId a s).2 = []) ∧
    ((perform_operation u opId itemId a s).1.history
        = s.history ++ [(opId, itemId, a)]) ∧
    ((perform_operation u opId itemId a s).1.items itemId
        = ((s.ops opId).execute (s.items itemId) a).2) ∧
    ((perform_operation u opId itemId a s).1.ops opId
        = ((s.ops opId).execute (s.items itemId) a).1) ∧
    (∀ j, j ≠ itemId → (perform_operation u opId itemId a s).1.items j = s.items j) ∧
    (∀ j, j ≠ opId → (perform_operation u opId itemId a s).1.ops j = s.ops j) ∧
    (((perform_operation u opId itemId a s).1.items itemId).name
        = (s.items itemId).name) ∧
    ((s.ops opId = .addItem ∨ s.ops opId = .removeItem) →
      ((perform_operation u opId itemId a s).1.items itemId).price
          = (s.items itemId).price ∧
      ((perform_operation u opId itemId a s).1.items itemId).location
          = (s.items itemId).location) ∧
    (∀ nl ol, s.ops opId = .transferItem nl ol →
      ((perform_operation u opId itemId a s).1.items itemId).amount
          = (s.items itemId).amount ∧
      ((perform_operation u opId itemId a s).1.items itemId).price
          = (s.items itemId).price) ∧
    (∀ p, s.ops opId = .adjustPrice p →
      ((perform_operation u opId itemId a s).1.items itemId).amount
          = (s.items itemId).amount ∧
      ((perform_operation u opId itemId a s).1.items itemId).location
          = (s.items itemId).location) := by
  refine ⟨by simp [perform_operation, hok], by simp [perform_operation, hok],
    by simp [perform_operation, hok, Function.update_same],
    by simp [perform_operation, hok, Function.update_same],
    fun j hj => by simp [perform_operation, hok, Function.update_noteq hj],
    fun j hj => by simp [perform_operation, hok, Function.update_noteq hj],
    by simp [perform_operation, hok, Function.update_same, execute_name],
    ?_, ?_, ?_⟩
  · rintro (hop | hop) <;> rw [hop] at hok <;>
      simp [perform_operation, hok, Function.update_same, hop,
        InventoryOperation.execute]
  · intro nl ol hop
    rw [hop] at hok
    simp [perform_operation, hok, Function.update_same, hop,
      InventoryOperation.execute]
  · intro p hop
    rw [hop] at hok
    simp [perform_operation, hok, Function.update_same, hop,
      InventoryOperation.execute]

/-- Witness for `perform_frame`: a staff user performing a fresh
`TransferItem` appends exactly the recorded entry to the history. -/
theorem perform_frame_witness :
    (perform_operation staffUser 0 0 5 witnessState).1.history
      = witnessState.history ++ [(0, 0, 5)] :=
  (perform_frame staffUser 0 0 5 witnessState (by decide)).2.1

/-! ## C6: admin reprice and its undo -/

/-- C6: for every item and amount, an `AdjustPrice` performed by a user whose
role is `"admin"` succeeds (prints nothing), first saves the item's current
price into the instance's `old_price` slot, then adds exactly `amount` to the
price (exact arithmetic on `ℚ`, no rounding and no truncation) while leaving
the other item fields unchanged; a subsequent `undo_last_operation` pops the
entry and sets the price back to the saved previous price, restoring the item
exactly. -/
theorem admin_reprice (u : User) (s : SystemState) (opId itemId : Nat) (a : ℚ)
    (p : Option ℚ) (hrole : u.role = "admin") (hop : s.ops opId = .adjustPrice p) :
    ((perform_operation u opId itemId a s).2 = []) ∧
    ((perform_operation u opId itemId a s).1.ops opId
        = .adjustPrice (some ((s.items itemId).price))) ∧
    ((perform_operation u opId itemId a s).1.items itemId
        = { s.items itemId with price := (s.items itemId).price + a }) ∧
    (undo_last_operation (perform_operation u opId itemId a s).1
        = some ({ (perform_operation u opId itemId a s).1 with
                  items := Function.update (perform_operation u opId itemId a s).1.items
                             itemId (s.items itemId),
                  history := s.history }, [])) := by
  have hd : deniedFor u (s.ops opId) = false := by
    simp [deniedFor, hrole]
  rw [hop] at hd
  refine ⟨by simp [perform_operation, hd, hop],
    by simp [perform_operation, hd, hop, InventoryOperation.execute,
      Function.update_same],
    by simp [perform_operation, hd, hop, InventoryOperation.execute,
      Function.update_same],
    ?_⟩
  simp [perform_operation, hd, hop, undo_last_operation, List.getLast?_concat,
    InventoryOperation.execute, Function.update_same, InventoryOperation.undo,
    List.dropLast_concat]

/-- Witness for `admin_reprice`: the demo's admin repricing succeeds and
prints nothing. -/
theorem admin_reprice_witness :
    (perform_operation adminUser 0 0 50 adjustHeapState).2 = [] :=
  (admin_reprice adminUser adjustHeapState 0 0 50 none rfl rfl).1

/-! ## C1: undo after a sequence of successful operations -/

/-- Splitting `allSuccessful` over a final call. -/
theorem allSuccessful_concat (s : SystemState) (cs : List Call) (c : Call)
    (h : allSuccessful s (cs ++ [c])) :
    (performCall c (runCalls s cs)).2 = [] := by
  induction cs generalizing s with
  | nil => exact h.1
  | cons c0 cs ih => exact ih (performCall c0 s).1 h.2

/-- C1: after any sequence of `N ≥ 1` successful `perform_operation` calls
(written `cs ++ [c]`, so the `N`-th call is `c`), one `undo_last_operation`
call pops exactly the last history entry — the `(operation, item, amount)`
triple recorded when `c` was applied — runs that operation's `undo` on that
recorded item with that recorded amount, and thereby restores the item to
the exact state it had immediately before the `N`-th call; the rest of the
state (all other items, all operation objects, the earlier history) is the
state after the first `N-1` calls left it.  This holds for arbitrary reuse
of operation instances, so in particular when each `TransferItem` /
`AdjustPrice` instance is fresh per use. -/
theorem undo_after_sequence (s0 : SystemState) (cs : List Call) (c : Call)
    (hall : allSuccessful s0 (cs ++ [c])) :
    (performCall c (runCalls s0 cs)).2 = [] ∧
    undo_last_operation (performCall c (runCalls s0 cs)).1
      = some ({ (performCall c (runCalls s0 cs)).1 with
                items := Function.update (performCall c (runCalls s0 cs)).1.items
                           c.itemId ((runCalls s0 cs).items c.itemId),
                history := (runCalls s0 cs).history }, []) := by
  set s1 := runCalls s0 cs with hs1
  have hsucc : (performCall c s1).2 = [] := allSuccessful_concat s0 cs c hall
  refine ⟨hsucc, ?_⟩
  have hd : deniedFor c.user (s1.ops c.opId) = false := by
    by_contra hne
    have hd' : deniedFor c.user (s1.ops c.opId) = true := by
      revert hne
      cases deniedFor c.user (s1.ops c.opId) <;> simp
    simp [performCall, perform_operation, hd'] at hsucc
  simp [performCall, perform_operation, hd, undo_last_operation,
    List.getLast?_concat, Function.update_same, List.dropLast_concat,
    execute_then_undo]

/-- Witness for `undo_after_sequence`: one successful transfer call on the
concrete heap, then one undo. -/
theorem undo_after_sequence_witness :
    allSuccessful witnessState ([] ++ [demoCall]) ∧
    ((performCall demoCall (runCalls witnessState [])).2 = [] ∧
     undo_last_operation (performCall demoCall (runCalls witnessState [])).1
       = some ({ (performCall demoCall (runCalls witnessState [])).1 with
                 items := Function.update
                            (performCall demoCall (runCalls witnessState [])).1.items
                            demoCall.itemId
                            ((runCalls witnessState []).items demoCall.itemId),
                 history := (runCalls witnessState []).history }, [])) :=
  ⟨⟨by decide, trivial⟩, undo_after_sequence witnessState [] demoCall ⟨by decide, trivial⟩⟩

/-! ## Helper lemmas for chained executions and undos -/

/-- Explicit form of the state after an authorized `perform_operation`. -/
theorem perform_ok_spec (u : User) (opId itemId : Nat) (a : ℚ) (s : SystemState)
    (hok : deniedFor u (s.ops opId) = false) :
    (perform_operation u opId itemId a s).1
      = { ops := Function.update s.ops opId
                   ((s.ops opId).execute (s.items itemId) a).1,
          items := Function.update s.items itemId
                     ((s.ops opId).execute (s.items itemId) a).2,
          history := s.history ++ [(opId, itemId, a)] } := by
  simp [perform_operation, hok]

/-- Explicit form of `undo_last_operation` on a state whose history ends in a
given entry and whose recorded operation's `undo` succeeds. -/
theorem undo_last_concat (s : SystemState) (hist : List (Nat × Nat × ℚ))
    (opId itemId : Nat) (a : ℚ) (hh : s.history = hist ++ [(opId, itemId, a)])
    (it : InventoryItem) (hu : (s.ops opId).undo (s.items itemId) a = some it) :
    undo_last_operation s
      = some ({ s with items := Function.update s.items itemId it,
                       history := hist }, []) := by
  unfold undo_last_operation
  rw [hh, List.getLast?_concat]
  simp [hu, List.dropLast_concat, hh]

/-! ## C9: re-executing the same operation instance overwrites its saved state -/

/-- C9: if the same `TransferItem` (resp. `AdjustPrice`) instance has
`execute` invoked a second time on the same item without an intervening undo,
the second `execute` overwrites the saved `old_location` (resp. `old_price`)
with the item's value at that second call — after the first transfer the item
already sits at the target, so the saved location becomes the target itself
(resp. the saved price becomes the once-adjusted price); thereafter every
`undo` through that instance — including the manager's undo of the earlier
history entry — restores that second-saved value, so after undoing both
entries the item still has the target location (resp. the once-adjusted
price `original + a1`): the state preceding the first `execute` is no longer
restorable through that instance. -/
theorem reused_instance_second_save_wins :
    (∀ (s : SystemState) (u1 u2 : User) (opId itemId : Nat) (a1 a2 : ℚ)
       (nl : String) (ol : Option String), s.ops opId = .transferItem nl ol →
      ((perform_operation u2 opId itemId a2
          (perform_operation u1 opId itemId a1 s).1).1.ops opId
        = .transferItem nl
            (some (((perform_operation u1 opId itemId a1 s).1.items itemId).location))) ∧
      (((perform_operation u1 opId itemId a1 s).1.items itemId).location = nl) ∧
      (∀ (it : InventoryItem) (a3 : ℚ),
        ((perform_operation u2 opId itemId a2
            (perform_operation u1 opId itemId a1 s).1).1.ops opId).undo it a3
          = some { it with location := nl }) ∧
      (∃ s3 s4,
        undo_last_operation (perform_operation u2 opId itemId a2
            (perform_operation u1 opId itemId a1 s).1).1 = some (s3, []) ∧
        (s3.items itemId).location = nl ∧
        undo_last_operation s3 = some (s4, []) ∧
        (s4.items itemId).location = nl)) ∧
    (∀ (s : SystemState) (u1 u2 : User) (opId itemId : Nat) (a1 a2 : ℚ)
       (p0 : Option ℚ), u1.role = "admin" → u2.role = "admin" →
       s.ops opId = .adjustPrice p0 →
      ((perform_operation u2 opId itemId a2
          (perform_operation u1 opId itemId a1 s).1).1.ops opId
        = .adjustPrice
            (some (((perform_operation u1 opId itemId a1 s).1.items itemId).price))) ∧
      (((perform_operation u1 opId itemId a1 s).1.items itemId).price
        = (s.items itemId).price + a1) ∧
      (∀ (it : InventoryItem) (a3 : ℚ),
        ((perform_operation u2 opId itemId a2
            (perform_operation u1 opId itemId a1 s).1).1.ops opId).undo it a3
          = some { it with price := (s.items itemId).price + a1 }) ∧
      (∃ s3 s4,
        undo_last_operation (perform_operation u2 opId itemId a2
            (perform_operation u1 opId itemId a1 s).1).1 = some (s3, []) ∧
        (s3.items itemId).price = (s.items itemId).price + a1 ∧
        undo_last_operation s3 = some (s4, []) ∧
        (s4.items itemId).price = (s.items itemId).price + a1)) := by
  constructor
  · intro s u1 u2 opId itemId a1 a2 nl ol hop
    have hd1 : deniedFor u1 (s.ops opId) = false := by
      simp [deniedFor, hop, InventoryOperation.isAdjustPrice]
    have h1 := perform_ok_spec u1 opId itemId a1 s hd1
    set s1 := (perform_operation u1 opId itemId a1 s).1 with hs1
    have h1ops : s1.ops opId = .transferItem nl (some (s.items itemId).location) := by
      rw [h1]; simp [hop, InventoryOperation.execute, Function.update_same]
    have h1items : s1.items itemId = { s.items itemId with location := nl } := by
      rw [h1]; simp [hop, InventoryOperation.execute, Function.update_same]
    have h1hist : s1.history = s.history ++ [(opId, itemId, a1)] := by rw [h1]
    have hd2 : deniedFor u2 (s1.ops opId) = false := by
      simp [deniedFor, h1ops, InventoryOperation.isAdjustPrice]
    have h2 := perform_ok_spec u2 opId itemId a2 s1 hd2
    set s2 := (perform_operation u2 opId itemId a2 s1).1 with hs2
    have h2ops : s2.ops opId = .transferItem nl (some nl) := by
      rw [h2]; simp [h1ops, h1items, InventoryOperation.execute, Function.update_same]
    have h2items : s2.items itemId = { s.items itemId with location := nl } := by
      rw [h2]; simp [h1ops, h1items, InventoryOperation.execute, Function.update_same]
    have h2hist : s2.history
        = (s.history ++ [(opId, itemId, a1)]) ++ [(opId, itemId, a2)] := by
      rw [h2, h1hist]
    refine ⟨by rw [h2ops, h1items], by rw [h1items], ?_, ?_⟩
    · intro it a3
      rw [h2ops]
      simp [InventoryOperation.undo]
    · have hu2 : (s2.ops opId).undo (s2.items itemId) a2
          = some { s2.items itemId with location := nl } := by
        rw [h2ops]; simp [InventoryOperation.undo]
      have h3 := undo_last_concat s2 (s.history ++ [(opId, itemId, a1)])
        opId itemId a2 h2hist _ hu2
      refine ⟨_, _, h3, by simp [Function.update_same],
        undo_last_concat _ s.history opId itemId a1 rfl
          { s2.items itemId with location := nl }
          (by simp [h2ops, Function.update_same, InventoryOperation.undo]),
        by simp [Function.update_same]⟩
  · intro s u1 u2 opId itemId a1 a2 p0 hr1 hr2 hop
    have hd1 : deniedFor u1 (s.ops opId) = false := by simp [deniedFor, hr1]
    have h1 := perform_ok_spec u1 opId itemId a1 s hd1
    set s1 := (perform_operation u1 opId itemId a1 s).1 with hs1
    have h1ops : s1.ops opId = .adjustPrice (some (s.items itemId).price) := by
      rw [h1]; simp [hop, InventoryOperation.execute, Function.update_same]
    have h1items : s1.items itemId
        = { s.items itemId with price := (s.items itemId).price + a1 } := by
      rw [h1]; simp [hop, InventoryOperation.execute, Function.update_same]
    have h1hist : s1.history = s.history ++ [(opId, itemId, a1)] := by rw [h1]
    have hd2 : deniedFor u2 (s1.ops opId) = false := by simp [deniedFor, hr2]
    have h2 := perform_ok_spec u2 opId itemId a2 s1 hd2
    set s2 := (perform_operation u2 opId itemId a2 s1).1 with hs2
    have h2ops : s2.ops opId = .adjustPrice (some ((s.items itemId).price + a1)) := by
      rw [h2]; simp [h1ops, h1items, InventoryOperation.execute, Function.update_same]
    have h2hist : s2.history
        = (s.history ++ [(opId, itemId, a1)]) ++ [(opId, itemId, a2)] := by
      rw [h2, h1hist]
    refine ⟨by rw [h2ops, h1items], by rw [h1items], ?_, ?_⟩
    · intro it a3
      rw [h2ops]
      simp [InventoryOperation.undo]
    · have hu2 : (s2.ops opId).undo (s2.items itemId) a2
          = some { s2.items itemId with price := (s.items itemId).price + a1 } := by
        rw [h2ops]; simp [InventoryOperation.undo]
      have h3 := undo_last_concat s2 (s.history ++ [(opId, itemId, a1)])
        opId itemId a2 h2hist _ hu2
      refine ⟨_, _, h3, by simp [Function.update_same],
        undo_last_concat _ s.history opId itemId a1 rfl
          { s2.items itemId with price := (s.items itemId).price + a1 }
          (by simp [h2ops, Function.update_same, InventoryOperation.undo]),
        by simp [Function.update_same]⟩

/-- Witness for `reused_instance_second_save_wins`: the same fresh transfer
instance executed twice on the concrete heap keeps only the second save, and
the same for an admin's twice-used `AdjustPrice` instance. -/
theorem reused_instance_witness :
    (((perform_operation staffUser 0 0 0
         (perform_operation staffUser 0 0 0 witnessState).1).1.ops 0).undo
        (mkInventoryItem "Widget" 10 100) 0
      = some { mkInventoryItem "Widget" 10 100 with location := "Shelf B" }) ∧
    (((perform_operation adminUser 0 0 7
         (perform_operation adminUser 0 0 1 adjustHeapState).1).1.ops 0).undo
        (mkInventoryItem "Iphone" 10 (159999/100)) 0
      = some { mkInventoryItem "Iphone" 10 (159999/100) with
               price := (adjustHeapState.items 0).price + 1 }) :=
  ⟨(reused_instance_second_save_wins.1 witnessState staffUser staffUser 0 0 0 0
      "Shelf B" none rfl).2.2.1 (mkInventoryItem "Widget" 10 100) 0,
   (reused_instance_second_save_wins.2 adjustHeapState adminUser adminUser 0 0 1 7
      none rfl rfl rfl).2.2.1 (mkInventoryItem "Iphone" 10 (159999/100)) 0⟩

/-! ## C10: the outcome depends only on the actor's role string -/

/-- C10: the entire outcome of `perform_operation` — denial or execution, the
printed output, the resulting items, operations and history — depends on the
actor only through the `role` field: two users with equal roles produce
identical results whatever their usernames; and denial of an `AdjustPrice` is
decided solely by exact string comparison of the role with `"admin"`, so any
other role string (such as `"Admin"` or a misspelling) is denied. -/
theorem perform_actor_independent :
    (∀ (u1 u2 : User) (opId itemId : Nat) (a : ℚ) (s : SystemState),
      u1.role = u2.role →
      perform_operation u1 opId itemId a s = perform_operation u2 opId itemId a s) ∧
    (∀ (u : User) (opId itemId : Nat) (a : ℚ) (s : SystemState) (p : Option ℚ),
      u.role ≠ "admin" → s.ops opId = .adjustPrice p →
      perform_operation u opId itemId a s = (s, [adjustDeniedMsg])) := by
  constructor
  · intro u1 u2 opId itemId a s hrole
    simp [perform_operation, deniedFor, hrole]
  · intro u opId itemId a s p hrole hop
    have hd : deniedFor u (s.ops opId) = true := by
      simp [deniedFor, hop, InventoryOperation.isAdjustPrice, bne_iff_ne, hrole]
    simp [perform_operation, hd]

/-- Witness for `perform_actor_independent`: two staff users with different
usernames act identically, and the capitalised role `"Admin"` is denied an
`AdjustPrice`. -/
theorem perform_actor_independent_witness :
    (perform_operation staffUser 0 0 5 witnessState
      = perform_operation { username := "other_user", role := "staff" } 0 0 5
          witnessState) ∧
    (perform_operation { username := "root", role := "Admin" } 0 0 5 adjustHeapState
      = (adjustHeapState, [adjustDeniedMsg])) :=
  ⟨perform_actor_independent.1 staffUser { username := "other_user", role := "staff" }
      0 0 5 witnessState rfl,
   perform_actor_independent.2 { username := "root", role := "Admin" } 0 0 5
      adjustHeapState none (by decide) rfl⟩

/-! ## C8: the location invariant -/

/-- An authorized `perform_operation` never changes the set of known storage
locations: `execute` preserves every operation's kind, and a transfer's
target location. -/
theorem knownLocations_perform (u : User) (opId itemId : Nat) (a : ℚ)
    (s : SystemState) :
    knownLocations (perform_operation u opId itemId a s).1 = knownLocations s := by
  by_cases hd : deniedFor u (s.ops opId) = true
  · simp [perform_operation, hd]
  · have hd' : deniedFor u (s.ops opId) = false := by
      revert hd; cases deniedFor u (s.ops opId) <;> simp
    rw [perform_ok_spec u opId itemId a s hd']
    ext l
    simp only [knownLocations, Set.mem_setOf_eq]
    constructor
    · rintro (rfl | ⟨id, ol, hid⟩)
      · exact Or.inl rfl
      · by_cases hik : id = opId
        · subst hik
          rw [Function.update_same] at hid
          right
          cases hko : s.ops id with
          | addItem => rw [hko] at hid; simp [InventoryOperation.execute] at hid
          | removeItem => rw [hko] at hid; simp [InventoryOperation.execute] at hid
          | transferItem nl0 ol0 =>
              rw [hko] at hid
              simp only [InventoryOperation.execute, InventoryOperation.transferItem.injEq] at hid
              exact ⟨id, ol0, by rw [hko, hid.1]⟩
          | adjustPrice op0 => rw [hko] at hid; simp [InventoryOperation.execute] at hid
        · rw [Function.update_noteq hik] at hid
          exact Or.inr ⟨id, ol, hid⟩
    · rintro (rfl | ⟨id, ol, hid⟩)
      · exact Or.inl rfl
      · by_cases hik : id = opId
        · subst hik
          exact Or.inr ⟨id, some ((s.items itemId).location),
            by rw [Function.update_same, hid]; rfl⟩
        · exact Or.inr ⟨id, ol, by rw [Function.update_noteq hik]; exact hid⟩

/-- `perform_operation` preserves the location invariant. -/
theorem locInv_perform (u : User) (opId itemId : Nat) (a : ℚ) (s : SystemState)
    (hinv : LocInv s) : LocInv (perform_operation u opId itemId a s).1 := by
  by_cases hd : deniedFor u (s.ops opId) = true
  · simpa [perform_operation, hd] using hinv
  · have hd' : deniedFor u (s.ops opId) = false := by
      revert hd; cases deniedFor u (s.ops opId) <;> simp
    have hkl := knownLocations_perform u opId itemId a s
    have hitems' : (perform_operation u opId itemId a s).1.items
        = Function.update s.items itemId ((s.ops opId).execute (s.items itemId) a).2 := by
      simp [perform_operation, hd']
    have hops' : (perform_operation u opId itemId a s).1.ops
        = Function.update s.ops opId ((s.ops opId).execute (s.items itemId) a).1 := by
      simp [perform_operation, hd']
    constructor
    · intro i
      rw [hkl, hitems']
      by_cases hi : i = itemId
      · subst hi
        rw [Function.update_same]
        cases hko : s.ops opId with
        | addItem => simpa [InventoryOperation.execute] using hinv.1 i
        | removeItem => simpa [InventoryOperation.execute] using hinv.1 i
        | transferItem nl0 ol0 => exact Or.inr ⟨opId, ol0, hko⟩
        | adjustPrice op0 => simpa [InventoryOperation.execute] using hinv.1 i
      · rw [Function.update_noteq hi]
        exact hinv.1 i
    · intro id nl l hid
      rw [hops'] at hid
      rw [hkl]
      by_cases hik : id = opId
      · subst hik
        rw [Function.update_same] at hid
        cases hko : s.ops id with
        | addItem => rw [hko] at hid; simp [InventoryOperation.execute] at hid
        | removeItem => rw [hko] at hid; simp [InventoryOperation.execute] at hid
        | transferItem nl0 ol0 =>
            rw [hko] at hid
            simp only [InventoryOperation.execute, InventoryOperation.transferItem.injEq,
              Option.some.injEq] at hid
            exact hid.2 ▸ hinv.1 itemId
        | adjustPrice op0 => rw [hko] at hid; simp [InventoryOperation.execute] at hid
      · rw [Function.update_noteq hik] at hid
        exact hinv.2 id nl l hid

/-- `undo_last_operation` preserves the location invariant (it changes no
operation object, and any location it writes back comes from a populated
`old_location` slot, which the invariant already covers). -/
theorem locInv_undo (s s' : SystemState) (out : List String) (hinv : LocInv s)
    (hu : undo_last_operation s = some (s', out)) : LocInv s' := by
  unfold undo_last_operation at hu
  cases hg : s.history.getLast? with
  | none =>
      rw [hg] at hu
      simp only [Option.some.injEq, Prod.mk.injEq] at hu
      obtain ⟨rfl, rfl⟩ := hu
      exact hinv
  | some e =>
      rw [hg] at hu
      rw [Option.map_eq_some'] at hu
      obtain ⟨it, hit, heq⟩ := hu
      injection heq with h1 h2
      subst h1
      subst h2
      constructor
      · intro i
        by_cases hi : i = e.2.1
        · subst hi
          show ((Function.update s.items e.2.1 it) e.2.1).location ∈ _
          rw [Function.update_same]
          cases hko : s.ops e.1 with
          | addItem =>
              rw [hko] at hit
              simp only [InventoryOperation.undo, Option.some.injEq] at hit
              rw [← hit]
              exact hinv.1 e.2.1
          | removeItem =>
              rw [hko] at hit
              simp only [InventoryOperation.undo, Option.some.injEq] at hit
              rw [← hit]
              exact hinv.1 e.2.1
          | transferItem nl ol =>
              rw [hko] at hit
              simp only [InventoryOperation.undo, Option.map_eq_some'] at hit
              obtain ⟨l0, hol, hit'⟩ := hit
              rw [← hit']
              exact hinv.2 e.1 nl l0 (by rw [hko, hol])
          | adjustPrice op0 =>
              rw [hko] at hit
              simp only [InventoryOperation.undo, Option.map_eq_some'] at hit
              obtain ⟨p0, hop0, hit'⟩ := hit
              rw [← hit']
              exact hinv.1 e.2.1
        · show ((Function.update s.items e.2.1 it) i).location ∈ _
          rw [Function.update_noteq hi]
          exact hinv.1 i
      · intro id nl l hid
        exact hinv.2 id nl l hid

/-- C8: starting from any state whose items are at the default
`"Main Storage"` location (as the constructor of `InventoryItem` always
produces — it takes only name, amount and price) and whose operation objects
are fresh, every state reachable by any sequence of `perform_operation` and
`undo_last_operation` calls keeps every item's location inside the set of
storage locations known to the system (`"Main Storage"` together with the
targets of the transfer operations in the heap). -/
theorem location_always_known (s0 s : SystemState)
    (hitems : ∀ i, (s0.items i).location = "Main Storage")
    (hops : ∀ id, freshOp (s0.ops id))
    (hsteps : Steps s0 s) :
    (∀ (n : String) (q p : ℚ), (mkInventoryItem n q p).location = "Main Storage") ∧
    (∀ i, (s.items i).location ∈ knownLocations s) := by
  refine ⟨fun n q p => rfl, ?_⟩
  have hinv0 : LocInv s0 := by
    constructor
    · intro i
      rw [hitems i]
      exact Or.inl rfl
    · intro id nl l hid
      have hfresh := hops id
      rw [hid] at hfresh
      simp [freshOp] at hfresh
  have hall : ∀ s', Steps s0 s' → LocInv s' := by
    intro s' hs
    induction hs with
    | refl => exact hinv0
    | performStep sb u opId itemId a hst ih => exact locInv_perform u opId itemId a sb ih
    | undoStep sb sc out hst hu ih => exact locInv_undo sb sc out ih hu
  exact (hall s hsteps).1

/-- Witness for `location_always_known` at the concrete start state. -/
theorem location_always_known_witness :
    (∀ i, (witnessState.items i).location = "Main Storage") ∧
    (∀ id, freshOp (witnessState.ops id)) ∧
    ((∀ (n : String) (q p : ℚ), (mkInventoryItem n q p).location = "Main Storage") ∧
     (∀ i, (witnessState.items i).location ∈ knownLocations witnessState)) :=
  ⟨fun _ => rfl, fun _ => rfl,
   location_always_known witnessState witnessState (fun _ => rfl) (fun _ => rfl)
     (Steps.refl witnessState)⟩
